import Mathlib

/-!
Shallow embedding of the TaskBuddy Plan Mutation Engine
(`firestoreServices` mutation layer and `TaskService` metrics projector).

JS `Record<string, TaskItem>` objects are modelled as association lists that
preserve insertion order (string keys enumerate in insertion order in JS);
`Record<number, DayPlan>` objects are modelled as association lists kept in
ascending key order (integer-like keys enumerate in ascending order in JS).
`Array.prototype.sort` is comparator-based and stable per ECMAScript, and every
comparator used by the source is a total preorder, so any stable sort computes
it; we use a stable insertion sort.  `Date.now()` is threaded as a `now : Nat`
parameter.  Firestore's document read/write and the `isTemplate` collection
choice are persistence plumbing: each operation is modelled as the pure
transaction body acting on the `Plan` value the transaction read.
-/

namespace TaskBuddy

/-- `type` discriminant of the `TaskItem` union (`'task' | 'section'`). -/
inductive ItemType where
  | task
  | section
deriving DecidableEq, Repr

/-- The `Item` envelope plus the optional variant-specific fields that a JS
object may carry (`Task`: minutes/assignedTo/completed/categoryId/notes;
`Section`: color/collapsed).  `order?: number` is `Option Nat`;
`assignedTo : string | null` (and possibly absent) is `Option (Option String)`
with `none` = absent and `some none` = null. -/
structure Item where
  id : String
  title : String
  order : Option Nat := none
  createdAt : Nat := 0
  updatedAt : Nat := 0
  minutes : Option Nat := none
  assignedTo : Option (Option String) := none
  completed : Option Bool := none
  categoryId : Option String := none
  notes : Option String := none
  color : Option String := none
  collapsed : Option Bool := none
deriving DecidableEq, Repr

/-- `TaskItem` storage union: `{ type: 'task' | 'section'; item: Item }`. -/
structure TaskItem where
  type : ItemType
  item : Item
deriving DecidableEq, Repr

/-- `DayPlan`: one day bucket. -/
structure DayPlan where
  id : String
  dayOfWeek : Nat
  tasks : List (String × TaskItem)
deriving DecidableEq, Repr

/-- `WeekPlan` / `ExecutionPlan` aggregate root (the execution-specific
`templateId`/`weekStartDate` fields are inert for every operation modelled
here and are omitted). -/
structure Plan where
  id : String
  name : String
  isTemplate : Bool
  days : List (Nat × DayPlan)
  createdAt : Nat := 0
  updatedAt : Nat := 0
  createdBy : String := ""
  collaborators : List String := []
  partnershipId : String := ""
deriving DecidableEq, Repr

/-- Typed failures thrown by the mutation layer:
`throw new Error('Plan not found')`, `throw new Error('Task not found')`
(persistence layer, part_005), `throw new Error('Item not found')` and
`throw new Error('Sections cannot be moved between different days')`
(context layer, part_000). -/
inductive PlanErr where
  | planNotFound
  | taskNotFound
  | itemNotFound
  | sectionCrossDay
deriving DecidableEq, Repr

/-! ### JS object primitives (string-keyed records, insertion order) -/

/-- `obj[k]` lookup. -/
def recordGet {α : Type} : List (String × α) → String → Option α
  | [], _ => none
  | (k', v) :: rest, k => if k = k' then some v else recordGet rest k

/-- `obj[k] = v`: overwrite in place if the key exists, else append
(JS string keys keep their first-insertion position). -/
def recordSet {α : Type} : List (String × α) → String → α → List (String × α)
  | [], k, v => [(k, v)]
  | (k', v') :: rest, k, v =>
      if k = k' then (k, v) :: rest else (k', v') :: recordSet rest k v

/-- `delete obj[k]`. -/
def recordDelete {α : Type} : List (String × α) → String → List (String × α)
  | [], _ => []
  | (k', v') :: rest, k =>
      if k = k' then recordDelete rest k else (k', v') :: recordDelete rest k

/-! ### JS object primitives (number-keyed records, ascending key order) -/

/-- `days[d]` lookup. -/
def dget : List (Nat × DayPlan) → Nat → Option DayPlan
  | [], _ => none
  | (k', v) :: rest, k => if k = k' then some v else dget rest k

/-- `days[d] = v`, keeping keys in ascending order as JS enumerates
integer-like keys. -/
def dset : List (Nat × DayPlan) → Nat → DayPlan → List (Nat × DayPlan)
  | [], k, v => [(k, v)]
  | (k', v') :: rest, k, v =>
      if k = k' then (k, v) :: rest
      else if k < k' then (k, v) :: (k', v') :: rest
      else (k', v') :: dset rest k v

/-- `delete days[d]`. -/
def ddelete : List (Nat × DayPlan) → Nat → List (Nat × DayPlan)
  | [], _ => []
  | (k', v') :: rest, k =>
      if k = k' then ddelete rest k else (k', v') :: ddelete rest k

/-! ### Stable comparator sort (model of `Array.prototype.sort`) -/

/-- Insert `x` in front of the first element `y` with `le x y`; keeps ties
behind elements already present, which is exactly stable-sort placement. -/
def insertLe {α : Type} (le : α → α → Bool) (x : α) : List α → List α
  | [] => [x]
  | y :: ys => if le x y then x :: y :: ys else y :: insertLe le x ys

/-- Stable sort by a boolean `le`; agrees with every ECMAScript stable
comparator sort whenever `le` is a total preorder. -/
def sortStable {α : Type} (le : α → α → Bool) : List α → List α
  | [] => []
  | x :: xs => insertLe le x (sortStable le xs)

/-- Comparator of `sortTasksByOrder`: defined orders ascending, an item with a
defined order before one without, two undefined orders tied (comparator
returns `a.item.order - b.item.order`, `-1`, `1`, `0` respectively). -/
def cmpLe (a b : TaskItem) : Bool :=
  match a.item.order, b.item.order with
  | some x, some y => x ≤ y
  | some _, none => true
  | none, some _ => false
  | none, none => true

/-- Comparator of `addTaskToDay`/`moveTask`:
`(a.item.order ?? 0) - (b.item.order ?? 0)`. -/
def leOrd0 (a b : TaskItem) : Bool :=
  a.item.order.getD 0 ≤ b.item.order.getD 0

/-! ### Ordering Normalizer (`sortTasksByOrder`, part_005 lines 243-283) -/

/-- The `forEach` of `sortTasksByOrder` that fills in a missing `order` with
the positional index and leaves an existing `order` untouched. -/
def fillOrders : Nat → List TaskItem → List TaskItem
  | _, [] => []
  | i, t :: ts =>
      (if t.item.order = none then { t with item := { t.item with order := some i } } else t)
        :: fillOrders (i + 1) ts

/-- Per-bucket core of `sortTasksByOrder`: sort `Object.values(day.tasks)`
with the comparator, then assign positional indices to missing orders. -/
def sortTaskArray (l : List TaskItem) : List TaskItem :=
  fillOrders 0 (sortStable cmpLe l)

/-- Rebuild a `Record` keyed by `t.item.id` from a task array
(`orderedTasks[task.item.id] = updatedTask`). -/
def buildRecord (l : List TaskItem) : List (String × TaskItem) :=
  l.foldl (fun r t => recordSet r t.item.id t) []

/-- `sortTasksByOrder` on a whole plan: normalize each day bucket. -/
def sortTasksByOrder (plan : Plan) : Plan :=
  { plan with
    days := plan.days.map fun kd =>
      (kd.1, { kd.2 with tasks := buildRecord (sortTaskArray (kd.2.tasks.map Prod.snd)) }) }

/-! ### Retry Controller (`runWithRetry`, part_005 lines 286-301) -/

/-- The retry loop: any failed attempt is recorded in `lastError` and retried
after a delay; the loop never inspects the error kind.  `fn i` is the result
of attempt `i` (each attempt re-reads the aggregate); `last` mirrors the JS
`lastError` variable (uninitialized before the first attempt: with
`maxRetries = 0` the JS code throws `undefined`, a case never exercised). -/
def runWithRetryGo {α : Type} (fn : Nat → Except PlanErr α) :
    Nat → Nat → PlanErr → Except PlanErr α
  | _, 0, last => .error last
  | attempt, remaining + 1, _last =>
      match fn attempt with
      | .ok x => .ok x
      | .error e => runWithRetryGo fn (attempt + 1) remaining e

/-- `runWithRetry(fn, maxRetries = 5)`: run up to `maxRetries` attempts,
return the first success, otherwise surface the last error. -/
def runWithRetry {α : Type} (maxRetries : Nat) (fn : Nat → Except PlanErr α) :
    Except PlanErr α :=
  runWithRetryGo fn 0 maxRetries .planNotFound

/-! ### List splicing (JS `Array.prototype.splice`) -/

/-- `arr.splice(i, 0, x)` for `i ≥ 0`: insert at `i`, clamped to the length
(an index past the end appends). -/
def spliceInsert {α : Type} (l : List α) (i : Nat) (x : α) : List α :=
  l.take i ++ x :: l.drop i

/-- `arr.splice(i, 1)` for `i ≥ 0`: remove the element at `i` when present. -/
def spliceRemove {α : Type} (l : List α) (i : Nat) : List α :=
  l.take i ++ l.drop (i + 1)

/-- The renumber-and-rebuild `forEach` shared by `addTaskToDay` and `moveTask`:
walk the spliced array with its index, apply the per-item rewrite `f`, and
store the result under the item's id
(`reorderedTasks[taskItem.item.id] = updatedTask`). -/
def buildReorderedGo (f : TaskItem → Nat → TaskItem) :
    Nat → List (String × TaskItem) → List TaskItem → List (String × TaskItem)
  | _, acc, [] => acc
  | i, acc, t :: ts => buildReorderedGo f (i + 1) (recordSet acc t.item.id (f t i)) ts

def buildReordered (f : TaskItem → Nat → TaskItem) (l : List TaskItem) :
    List (String × TaskItem) :=
  buildReorderedGo f 0 [] l

/-- `addTaskToDay`'s rewrite: `order` becomes the positional index. -/
def stampOrder (t : TaskItem) (i : Nat) : TaskItem :=
  { t with item := { t.item with order := some i } }

/-- `moveTask`'s rewrite: positional `order`, and a fresh `updatedAt` for the
moved item only. -/
def stampOrderMoved (taskId : String) (now : Nat) (t : TaskItem) (i : Nat) : TaskItem :=
  { t with item :=
      { t.item with
        order := some i,
        updatedAt := if t.item.id = taskId then now else t.item.updatedAt } }

/-! ### Mutation Operations (part_005).  Each definition is the pure
transaction body run against the `Plan` snapshot the transaction read; the
`Plan not found` guard belongs to the snapshot read itself and the
`isTemplate` flag only selects the Firestore collection. -/

/-- `NewTaskItem` payload: envelope fields without `id`/timestamps
(`Omit<Item, 'id' | 'createdAt' | 'updatedAt'>`). -/
structure NewItem where
  title : String
  order : Option Nat := none
  minutes : Option Nat := none
  assignedTo : Option (Option String) := none
  completed : Option Bool := none
  categoryId : Option String := none
  notes : Option String := none
  color : Option String := none
  collapsed : Option Bool := none
deriving DecidableEq, Repr

structure NewTaskItem where
  type : ItemType
  item : NewItem
deriving DecidableEq, Repr

/-- `addTaskToDay` (part_005 lines 304-381): splice the new item into the
sorted task array at `insertIndex ?? length`, renumber everything, write the
rebuilt bucket back, and return the created item (whose `order` is the
*requested* index, not the renumbered one) together with the updated plan.
`taskId` stands for the generated `uuidv4()`. -/
def addTaskToDay (plan : Plan) (dayOfWeek : Nat) (task : NewTaskItem)
    (isTemplate : Bool) (insertIndex : Option Nat) (taskId : String) (now : Nat) :
    TaskItem × Plan :=
  let _ := isTemplate
  let days := plan.days
  let day : DayPlan :=
    (dget days dayOfWeek).getD
      { id := plan.id ++ "-" ++ toString dayOfWeek, dayOfWeek := dayOfWeek, tasks := [] }
  let existingTasks := sortStable leOrd0 (day.tasks.map Prod.snd)
  let targetIndex := insertIndex.getD existingTasks.length
  let newTask : TaskItem :=
    { type := task.type,
      item :=
        { id := taskId, title := task.item.title, order := some targetIndex,
          createdAt := now, updatedAt := now, minutes := task.item.minutes,
          assignedTo := task.item.assignedTo, completed := task.item.completed,
          categoryId := task.item.categoryId, notes := task.item.notes,
          color := task.item.color, collapsed := task.item.collapsed } }
  let spliced := spliceInsert existingTasks targetIndex newTask
  let reorderedTasks := buildReordered stampOrder spliced
  let day' := { day with tasks := reorderedTasks }
  let days' := dset days dayOfWeek day'
  (newTask, { plan with days := days', updatedAt := now })

/-- `Partial<Item>`: each field may be absent (`none`) or supply a value of
the field's (possibly optional) type. -/
structure PartialItem where
  id : Option String := none
  title : Option String := none
  order : Option (Option Nat) := none
  createdAt : Option Nat := none
  updatedAt : Option Nat := none
  minutes : Option (Option Nat) := none
  assignedTo : Option (Option (Option String)) := none
  completed : Option (Option Bool) := none
  categoryId : Option (Option String) := none
  notes : Option (Option String) := none
  color : Option (Option String) := none
  collapsed : Option (Option Bool) := none
deriving DecidableEq, Repr

/-- `Partial<TaskItem>`. -/
structure PartialTaskItem where
  type : Option ItemType := none
  item : Option PartialItem := none
deriving DecidableEq, Repr

/-- `{ ...currentTask.item, ...(updates.item || {}), updatedAt: Date.now() }`. -/
def mergeItem (i : Item) (p : PartialItem) (now : Nat) : Item :=
  { id := p.id.getD i.id, title := p.title.getD i.title,
    order := p.order.getD i.order, createdAt := p.createdAt.getD i.createdAt,
    updatedAt := now, minutes := p.minutes.getD i.minutes,
    assignedTo := p.assignedTo.getD i.assignedTo,
    completed := p.completed.getD i.completed,
    categoryId := p.categoryId.getD i.categoryId, notes := p.notes.getD i.notes,
    color := p.color.getD i.color, collapsed := p.collapsed.getD i.collapsed }

/-- `{ ...currentTask, ...updates, item: mergeItem ... }`. -/
def mergeTaskItem (cur : TaskItem) (upd : PartialTaskItem) (now : Nat) : TaskItem :=
  { type := upd.type.getD cur.type,
    item := mergeItem cur.item (upd.item.getD {}) now }

/-- `updateTask` (part_005 lines 384-428): locate the item in the addressed
bucket (else `Task not found`), merge the partial updates, stamp `updatedAt`,
write the item back in place. -/
def updateTask (plan : Plan) (dayOfWeek : Nat) (taskId : String)
    (updates : PartialTaskItem) (isTemplate : Bool) (now : Nat) :
    Except PlanErr Plan :=
  let _ := isTemplate
  let days := plan.days
  match dget days dayOfWeek with
  | none => .error .taskNotFound
  | some day =>
      match recordGet day.tasks taskId with
      | none => .error .taskNotFound
      | some currentTask =>
          let updatedTask := mergeTaskItem currentTask updates now
          let day' := { day with tasks := recordSet day.tasks taskId updatedTask }
          .ok { plan with days := dset days dayOfWeek day', updatedAt := now }

/-- `deleteTask` (part_005 lines 431-469): locate the item (else
`Task not found`), delete it, and drop the whole day key when the bucket
became empty; remaining items are left untouched. -/
def deleteTask (plan : Plan) (dayOfWeek : Nat) (taskId : String)
    (isTemplate : Bool) (now : Nat) : Except PlanErr Plan :=
  let _ := isTemplate
  let days := plan.days
  match dget days dayOfWeek with
  | none => .error .taskNotFound
  | some day =>
      match recordGet day.tasks taskId with
      | none => .error .taskNotFound
      | some _ =>
          let tasks' := recordDelete day.tasks taskId
          let days' :=
            if tasks'.isEmpty then ddelete days dayOfWeek
            else dset days dayOfWeek { day with tasks := tasks' }
          .ok { plan with days := days', updatedAt := now }

/-- `isAssignableItem` (part_005 line 6). -/
def isAssignableItem (taskItem : TaskItem) : Bool := taskItem.type = ItemType.task

/-- `moveTask` (part_005 lines 472-585).  `assignToUser : Option (Option String)`
(`none` = argument omitted, `some v` = assign `v`, possibly null).  Same-day
moves with both indices present renumber one bucket; every other call takes
the cross-day branch, which deletes from the source bucket *without*
renumbering or pruning it, and splices into the target bucket (renumbering it
only when `targetIndex` is present, else appending with
`order = Object.keys(targetDay.tasks).length`).  No branch inspects the
`'section'` tag except the assignee override. -/
def moveTask (plan : Plan) (sourceDayOfWeek targetDayOfWeek : Nat)
    (taskId : String) (isTemplate : Bool) (assignToUser : Option (Option String))
    (sourceIndex targetIndex : Option Nat) (now : Nat) : Except PlanErr Plan :=
  let _ := isTemplate
  let days := plan.days
  match dget days sourceDayOfWeek with
  | none => .error .taskNotFound
  | some sourceDay =>
      match recordGet sourceDay.tasks taskId with
      | none => .error .taskNotFound
      | some task0 =>
          let task : TaskItem :=
            match assignToUser with
            | some v =>
                if isAssignableItem task0 then
                  { task0 with item :=
                      { task0.item with assignedTo := some v, updatedAt := now } }
                else task0
            | none => task0
          if sourceDayOfWeek = targetDayOfWeek ∧
              sourceIndex.isSome ∧ targetIndex.isSome then
            let taskList := sortStable leOrd0 (sourceDay.tasks.map Prod.snd)
            let l1 := spliceRemove taskList (sourceIndex.getD 0)
            let l2 := spliceInsert l1 (targetIndex.getD 0) task
            let reordered := buildReordered (stampOrderMoved taskId now) l2
            let days' := dset days sourceDayOfWeek { sourceDay with tasks := reordered }
            .ok { plan with days := days', updatedAt := now }
          else
            let sourceDay' := { sourceDay with tasks := recordDelete sourceDay.tasks taskId }
            let days1 := dset days sourceDayOfWeek sourceDay'
            let targetDay : DayPlan :=
              (dget days1 targetDayOfWeek).getD
                { id := plan.id ++ "-" ++ toString targetDayOfWeek,
                  dayOfWeek := targetDayOfWeek, tasks := [] }
            let targetDay' :=
              match targetIndex with
              | some tIdx =>
                  let taskList := sortStable leOrd0 (targetDay.tasks.map Prod.snd)
                  let l2 := spliceInsert taskList tIdx task
                  { targetDay with tasks := buildReordered (stampOrderMoved taskId now) l2 }
              | none =>
                  let task' :=
                    { task with item := { task.item with order := some targetDay.tasks.length } }
                  { targetDay with tasks := recordSet targetDay.tasks taskId task' }
            let days' := dset days1 targetDayOfWeek targetDay'
            .ok { plan with days := days', updatedAt := now }

/-- `moveTaskBetweenDays` (part_000 lines 644-768), the context-layer Move
operation wrapping the persistence-layer `moveTask`: it looks the item up in
the caller's copy of the aggregate (`Item not found` when absent) and rejects
a cross-day move of a `'section'` *before any write*
(`Sections cannot be moved between different days`); otherwise the aggregate
write is the delegated `moveTask` call.  An error therefore always leaves the
persisted aggregate untouched. -/
def moveTaskBetweenDays (plan : Plan) (sourceDayOfWeek targetDayOfWeek : Nat)
    (itemId : String) (sourceIndex targetIndex : Nat)
    (assignToUser : Option (Option String)) (isTemplate : Bool) (now : Nat) :
    Except PlanErr Plan :=
  match (dget plan.days sourceDayOfWeek).bind (fun d => recordGet d.tasks itemId) with
  | none => .error .itemNotFound
  | some currentTaskItem =>
      if currentTaskItem.type = ItemType.section ∧ sourceDayOfWeek ≠ targetDayOfWeek then
        .error .sectionCrossDay
      else
        moveTask plan sourceDayOfWeek targetDayOfWeek itemId isTemplate
          assignToUser (some sourceIndex) (some targetIndex) now

/-! ### Metrics Projector (`TaskService.ts`) -/

/-- The flat `Task` type of `types/index.ts` (`Item` envelope plus the
task-only fields); `assignedTo : string | null` is `Option String`.  Durations
are whole minutes. -/
structure Task where
  id : String
  title : String
  order : Option Nat := none
  createdAt : Nat := 0
  updatedAt : Nat := 0
  minutes : Nat
  assignedTo : Option String
  completed : Bool
  categoryId : Option String := none
  notes : Option String := none
deriving DecidableEq, Repr

inductive Owner where
  | user
  | partner
  | unassigned
deriving DecidableEq, Repr

/-- `filterTasksByOwner` (TaskService.ts lines 27-40); `userId`/`partnerId`
are the two collaborator identifiers held by the service instance. -/
def filterTasksByOwner (userId partnerId : String) (tasks : List Task)
    (owner : Owner) : List Task :=
  match owner with
  | .user => tasks.filter fun task => task.assignedTo = some userId
  | .partner => tasks.filter fun task => task.assignedTo = some partnerId
  | .unassigned => tasks.filter fun task => task.assignedTo = none

/-- Result record of `calculateTaskMetrics`; the exact quotients
`completed/total` and `minutes/60` are modelled in `ℚ`. -/
structure TaskMetrics where
  totalTasks : Nat
  completedTasks : Nat
  totalMinutes : Nat
  remainingMinutes : Nat
  completionRate : ℚ
  hoursTotal : ℚ
  hoursRemaining : ℚ
deriving DecidableEq, Repr

/-- `calculateTaskMetrics` (TaskService.ts lines 51-68). -/
def calculateTaskMetrics (tasks : List Task) : TaskMetrics :=
  let totalTasks := tasks.length
  let completedTasks := (tasks.filter fun task => task.completed).length
  let totalMinutes := (tasks.map Task.minutes).sum
  let remainingMinutes := ((tasks.filter fun task => !task.completed).map Task.minutes).sum
  { totalTasks := totalTasks, completedTasks := completedTasks,
    totalMinutes := totalMinutes, remainingMinutes := remainingMinutes,
    completionRate := if totalTasks > 0 then (completedTasks : ℚ) / totalTasks else 0,
    hoursTotal := (totalMinutes : ℚ) / 60,
    hoursRemaining := (remainingMinutes : ℚ) / 60 }

/-- Well-formed day bucket: record keys are unique and each entry is stored
under its item's id, as the mutation layer maintains
(`reorderedTasks[taskItem.item.id] = updatedTask`). -/
def WFDay (d : DayPlan) : Prop :=
  (d.tasks.map Prod.fst).Nodup ∧ ∀ p ∈ d.tasks, p.2.item.id = p.1

instance (d : DayPlan) : Decidable (WFDay d) := by
  unfold WFDay; infer_instance

/-- Apply `f` to successive elements together with their positional index,
starting at `i`; spec-side description of the renumbering `forEach`. -/
def mapIdxFrom (f : TaskItem → Nat → TaskItem) : Nat → List TaskItem → List TaskItem
  | _, [] => []
  | i, t :: ts => f t i :: mapIdxFrom f (i + 1) ts

/-- Result of `calculateTaskMetricsByOwner`. -/
structure OwnerMetrics where
  user : TaskMetrics
  partner : TaskMetrics
  unassigned : TaskMetrics
  all : TaskMetrics
deriving DecidableEq, Repr

/-- `calculateTaskMetricsByOwner` (TaskService.ts lines 73-84). -/
def calculateTaskMetricsByOwner (userId partnerId : String)
    (tasks : List Task) : OwnerMetrics :=
  let userTasks := filterTasksByOwner userId partnerId tasks .user
  let partnerTasks := filterTasksByOwner userId partnerId tasks .partner
  let unassignedTasks := filterTasksByOwner userId partnerId tasks .unassigned
  { user := calculateTaskMetrics userTasks,
    partner := calculateTaskMetrics partnerTasks,
    unassigned := calculateTaskMetrics unassignedTasks,
    all := calculateTaskMetrics tasks }

/-! ### Concrete example data used by counterexamples and witnesses -/

/-- Section item living in day 0 of `planC1`. -/
def sectionS : TaskItem :=
  { type := ItemType.section, item := { id := "s", title := "Morning", order := some 0 } }

def planC1 : Plan :=
  { id := "p", name := "wk", isTemplate := true,
    days := [(0, { id := "p-0", dayOfWeek := 0, tasks := [("s", sectionS)] })] }

/-- Section `s` after the move: `order` kept, `updatedAt` stamped. -/
def sectionSres : TaskItem :=
  { type := ItemType.section,
    item := { id := "s", title := "Morning", order := some 0, updatedAt := 99 } }

def planC1res : Plan :=
  { id := "p", name := "wk", isTemplate := true,
    days :=
      [(0, { id := "p-0", dayOfWeek := 0, tasks := [] }),
       (1, { id := "p-1", dayOfWeek := 1, tasks := [("s", sectionSres)] })],
    updatedAt := 99 }

def itemA4 : Item :=
  { id := "a", title := "A", order := some 0, minutes := some 30,
    assignedTo := some none, completed := some false }

def taskA4 : TaskItem := { type := ItemType.task, item := itemA4 }

def dayC4 : DayPlan := { id := "P-1", dayOfWeek := 1, tasks := [("a", taskA4)] }

/-- Scenario B of the spec: day 1 holds only `a`, day 2 is absent. -/
def planC4 : Plan :=
  { id := "P", name := "wk", isTemplate := false, days := [(1, dayC4)] }

/-- What `moveTask` actually produces for Scenario B: day 1 is *kept* with an
empty task map. -/
def taskA4res : TaskItem :=
  { type := ItemType.task, item := { itemA4 with updatedAt := 99 } }

def planC4res : Plan :=
  { id := "P", name := "wk", isTemplate := false,
    days :=
      [(1, { id := "P-1", dayOfWeek := 1, tasks := [] }),
       (2, { id := "P-2", dayOfWeek := 2, tasks := [("a", taskA4res)] })],
    updatedAt := 99 }

def taskA2 : TaskItem :=
  { type := ItemType.task, item := { id := "a", title := "A", order := some 0 } }

def taskB2 : TaskItem :=
  { type := ItemType.task, item := { id := "b", title := "B", order := some 1 } }

def dayC2 : DayPlan :=
  { id := "q-0", dayOfWeek := 0, tasks := [("a", taskA2), ("b", taskB2)] }

def planC2 : Plan :=
  { id := "q", name := "wk", isTemplate := false, days := [(0, dayC2)] }

/-- After deleting `a`, the bucket keeps `b` with its old `order = 1`. -/
def planC2res : Plan :=
  { id := "q", name := "wk", isTemplate := false,
    days := [(0, { id := "q-0", dayOfWeek := 0, tasks := [("b", taskB2)] })],
    updatedAt := 99 }

def taskA7 : TaskItem :=
  { type := ItemType.task, item := { id := "a", title := "A", order := some 0 } }

def dayC7 : DayPlan := { id := "r-0", dayOfWeek := 0, tasks := [("a", taskA7)] }

def planC7 : Plan :=
  { id := "r", name := "wk", isTemplate := false, days := [(0, dayC7)] }

/-- Partial update that explicitly carries an `order` value. -/
def updC7 : PartialTaskItem := { item := some { order := some (some 5) } }

/-- Partial update touching only content fields (no `order`). -/
def updC7w : PartialTaskItem :=
  { item := some { title := some "A2", completed := some (some true) } }

def taskA7res : TaskItem :=
  { type := ItemType.task,
    item := { id := "a", title := "A", order := some 5, updatedAt := 99 } }

def planC7res : Plan :=
  { id := "r", name := "wk", isTemplate := false,
    days := [(0, { id := "r-0", dayOfWeek := 0, tasks := [("a", taskA7res)] })],
    updatedAt := 99 }

/-- Single-item normalizer input whose stored `order` is stale (5). -/
def taskC3 : TaskItem :=
  { type := ItemType.task, item := { id := "x", title := "X", order := some 5 } }

def taskM : TaskItem :=
  { type := ItemType.task, item := { id := "m", title := "M", order := some 0 } }

def dayC2w : DayPlan := { id := "w-0", dayOfWeek := 0, tasks := [("m", taskM)] }

def planC2w : Plan :=
  { id := "w", name := "wk", isTemplate := false, days := [(0, dayC2w)] }

def payloadN : NewTaskItem := { type := ItemType.task, item := { title := "N" } }

def taskX6 : TaskItem :=
  { type := ItemType.task, item := { id := "x", title := "X", order := some 0 } }

def dayC6 : DayPlan := { id := "u-3", dayOfWeek := 3, tasks := [("x", taskX6)] }

/-- Scenario C of the spec: day 3 holds only `x`. -/
def planC6 : Plan :=
  { id := "u", name := "wk", isTemplate := false, days := [(3, dayC6)] }

def taskX8 : TaskItem :=
  { type := ItemType.task, item := { id := "x", title := "X", order := some 1 } }

def taskY8 : TaskItem :=
  { type := ItemType.task, item := { id := "y", title := "Y", order := some 0 } }

def tasksC9 : List Task :=
  [{ id := "t1", title := "T1", minutes := 30, assignedTo := some "u", completed := true },
   { id := "t2", title := "T2", minutes := 45, assignedTo := some "v", completed := false },
   { id := "t3", title := "T3", minutes := 15, assignedTo := none, completed := false },
   { id := "t4", title := "T4", minutes := 60, assignedTo := some "u", completed := false }]

def taskA10 : TaskItem :=
  { type := ItemType.task, item := { id := "a", title := "A", order := some 0 } }

def dayC10 : DayPlan := { id := "z-0", dayOfWeek := 0, tasks := [("a", taskA10)] }

def planC10 : Plan :=
  { id := "z", name := "wk", isTemplate := false, days := [(0, dayC10)] }

/-! ## Helper lemmas: record and day-map primitives -/

theorem recordGet_recordSet_self {α : Type} (l : List (String × α)) (k : String) (v : α) :
    recordGet (recordSet l k v) k = some v := by
  induction l with
  | nil => simp [recordSet, recordGet]
  | cons p rest ih =>
      by_cases h : k = p.1
      · simp [recordSet, recordGet, h]
      · simp [recordSet, recordGet, h, ih]

theorem recordGet_recordSet_other {α : Type} (l : List (String × α)) (k k' : String) (v : α)
    (h : k' ≠ k) : recordGet (recordSet l k v) k' = recordGet l k' := by
  induction l with
  | nil => simp [recordSet, recordGet, h]
  | cons p rest ih =>
      by_cases hk : k = p.1
      · subst hk; simp [recordSet, recordGet, h]
      · by_cases hk' : k' = p.1
        · simp [recordSet, recordGet, hk, hk']
        · simp [recordSet, recordGet, hk, hk', ih]

theorem recordSet_of_not_mem_keys {α : Type} (l : List (String × α)) (k : String) (v : α)
    (h : k ∉ l.map Prod.fst) : recordSet l k v = l ++ [(k, v)] := by
  induction l with
  | nil => simp [recordSet]
  | cons p rest ih =>
      simp only [List.map_cons, List.mem_cons, not_or] at h
      simp [recordSet, h.1, ih h.2]

theorem keys_recordSet_of_mem {α : Type} (l : List (String × α)) (k : String) (v : α)
    (h : k ∈ l.map Prod.fst) : (recordSet l k v).map Prod.fst = l.map Prod.fst := by
  induction l with
  | nil => simp at h
  | cons p rest ih =>
      by_cases hk : k = p.1
      · simp [recordSet, hk]
      · simp only [List.map_cons, List.mem_cons, hk, false_or] at h
        simp [recordSet, hk, ih h]

theorem recordGet_recordDelete_self {α : Type} (l : List (String × α)) (k : String) :
    recordGet (recordDelete l k) k = none := by
  induction l with
  | nil => simp [recordDelete, recordGet]
  | cons p rest ih =>
      by_cases h : k = p.1
      · simpa [recordDelete, h] using ih
      · simp [recordDelete, recordGet, h, ih]

theorem recordGet_recordDelete_other {α : Type} (l : List (String × α)) (k k' : String)
    (h : k' ≠ k) : recordGet (recordDelete l k) k' = recordGet l k' := by
  induction l with
  | nil => simp [recordDelete]
  | cons p rest ih =>
      by_cases hk : k = p.1
      · subst hk; simp [recordDelete, recordGet, h, ih]
      · by_cases hk' : k' = p.1
        · simp [recordDelete, recordGet, hk, hk']
        · simp [recordDelete, recordGet, hk, hk', ih]

theorem recordDelete_of_get_none {α : Type} (l : List (String × α)) (k : String)
    (h : recordGet l k = none) : recordDelete l k = l := by
  induction l with
  | nil => simp [recordDelete]
  | cons p rest ih =>
      by_cases hk : k = p.1
      · simp [recordGet, hk] at h
      · simp only [recordGet, hk, if_false] at h
        simp [recordDelete, hk, ih h]

theorem recordGet_none_of_not_mem_keys {α : Type} (l : List (String × α)) (k : String)
    (h : k ∉ l.map Prod.fst) : recordGet l k = none := by
  induction l with
  | nil => simp [recordGet]
  | cons p rest ih =>
      simp only [List.map_cons, List.mem_cons, not_or] at h
      simp [recordGet, h.1, ih h.2]

theorem length_recordDelete {α : Type} (l : List (String × α)) (k : String) (v : α)
    (hnd : (l.map Prod.fst).Nodup) (h : recordGet l k = some v) :
    (recordDelete l k).length + 1 = l.length := by
  induction l with
  | nil => simp [recordGet] at h
  | cons p rest ih =>
      simp only [List.map_cons, List.nodup_cons] at hnd
      by_cases hk : k = p.1
      · have hnone : recordGet rest p.1 = none := by
          apply recordGet_none_of_not_mem_keys
          exact hnd.1
        have hd : recordDelete rest p.1 = rest := recordDelete_of_get_none rest p.1 hnone
        simp [recordDelete, hk, hd]
      · simp only [recordGet, hk, if_false] at h
        simp [recordDelete, hk, ih hnd.2 h]

theorem recordGet_of_mem_nodup {α : Type} (l : List (String × α)) (k : String) (v : α)
    (hnd : (l.map Prod.fst).Nodup) (h : (k, v) ∈ l) : recordGet l k = some v := by
  induction l with
  | nil => simp at h
  | cons p rest ih =>
      simp only [List.map_cons, List.nodup_cons] at hnd
      rcases List.mem_cons.mp h with h1 | h2
      · rw [← h1]; simp [recordGet]
      · by_cases hk : k = p.1
        · exfalso
          apply hnd.1
          rw [← hk]
          exact List.mem_map.mpr ⟨(k, v), h2, rfl⟩
        · simp [recordGet, hk, ih hnd.2 h2]

theorem recordGet_append {α : Type} (A B : List (String × α)) (k : String) :
    recordGet (A ++ B) k =
      match recordGet A k with
      | some v => some v
      | none => recordGet B k := by
  induction A with
  | nil => simp [recordGet]
  | cons p rest ih =>
      by_cases hk : k = p.1
      · simp [recordGet, hk]
      · simp [recordGet, hk, ih]

theorem dget_dset_self (l : List (Nat × DayPlan)) (k : Nat) (v : DayPlan) :
    dget (dset l k v) k = some v := by
  induction l with
  | nil => simp [dset, dget]
  | cons p rest ih =>
      by_cases h : k = p.1
      · simp [dset, dget, h]
      · by_cases hlt : k < p.1
        · simp [dset, dget, h, hlt]
        · simp [dset, dget, h, hlt, ih]

theorem dget_dset_other (l : List (Nat × DayPlan)) (k k' : Nat) (v : DayPlan)
    (h : k' ≠ k) : dget (dset l k v) k' = dget l k' := by
  induction l with
  | nil => simp [dset, dget, h]
  | cons p rest ih =>
      by_cases hk : k = p.1
      · subst hk; simp [dset, dget, h]
      · by_cases hlt : k < p.1
        · by_cases hk' : k' = p.1
          · have hp : ¬(p.1 = k) := by rw [← hk']; exact h
            simp [dset, dget, hk, hlt, hk', hp]
          · simp [dset, dget, hk, hlt, hk', h]
        · by_cases hk' : k' = p.1
          · have hp : ¬(p.1 = k) := by rw [← hk']; exact h
            simp [dset, dget, hk, hlt, hk', hp]
          · simp [dset, dget, hk, hlt, hk', ih, h]

theorem dget_ddelete_self (l : List (Nat × DayPlan)) (k : Nat) :
    dget (ddelete l k) k = none := by
  induction l with
  | nil => simp [ddelete, dget]
  | cons p rest ih =>
      by_cases h : k = p.1
      · simpa [ddelete, h] using ih
      · simp [ddelete, dget, h, ih]

theorem dget_ddelete_other (l : List (Nat × DayPlan)) (k k' : Nat)
    (h : k' ≠ k) : dget (ddelete l k) k' = dget l k' := by
  induction l with
  | nil => simp [ddelete]
  | cons p rest ih =>
      by_cases hk : k = p.1
      · subst hk; simp [ddelete, dget, h, ih]
      · by_cases hk' : k' = p.1
        · simp [ddelete, dget, hk, hk']
        · simp [ddelete, dget, hk, hk', ih]

/-! ## Helper lemmas: stable sort -/

theorem insertLe_perm {α : Type} (le : α → α → Bool) (x : α) (l : List α) :
    List.Perm (insertLe le x l) (x :: l) := by
  induction l with
  | nil => simp [insertLe]
  | cons y ys ih =>
      by_cases h : le x y
      · simp [insertLe, h]
      · simp only [insertLe, h, if_false]
        exact ((ih.cons y).trans (List.Perm.swap x y ys))

theorem sortStable_perm {α : Type} (le : α → α → Bool) (l : List α) :
    List.Perm (sortStable le l) l := by
  induction l with
  | nil => simp [sortStable]
  | cons x xs ih =>
      exact (insertLe_perm le x (sortStable le xs)).trans (ih.cons x)

theorem length_sortStable {α : Type} (le : α → α → Bool) (l : List α) :
    (sortStable le l).length = l.length :=
  (sortStable_perm le l).length_eq

theorem mem_sortStable {α : Type} (le : α → α → Bool) (l : List α) (x : α) :
    x ∈ sortStable le l ↔ x ∈ l :=
  (sortStable_perm le l).mem_iff

theorem pairwise_insertLe {α : Type} (le : α → α → Bool) (x : α) (l : List α)
    (htot : ∀ a b, le a b = true ∨ le b a = true)
    (htrans : ∀ a b c, le a b = true → le b c = true → le a c = true)
    (hl : l.Pairwise fun a b => le a b = true) :
    (insertLe le x l).Pairwise fun a b => le a b = true := by
  induction l with
  | nil => simp [insertLe]
  | cons y ys ih =>
      rcases List.pairwise_cons.mp hl with ⟨hy, hys⟩
      by_cases h : le x y
      · simp only [insertLe, h, if_true]
        refine List.pairwise_cons.mpr ⟨?_, hl⟩
        intro b hb
        rcases List.mem_cons.mp hb with hb | hb
        · rw [hb]; exact h
        · exact htrans x y b h (hy b hb)
      · simp only [insertLe, h, if_false]
        refine List.pairwise_cons.mpr ⟨?_, ih hys⟩
        intro b hb
        have hb' := (insertLe_perm le x ys).mem_iff.mp hb
        rcases List.mem_cons.mp hb' with rfl | hbys
        · rcases htot b y with hxy | hyx
          · exact absurd hxy h
          · exact hyx
        · exact hy b hbys

theorem pairwise_sortStable {α : Type} (le : α → α → Bool) (l : List α)
    (htot : ∀ a b, le a b = true ∨ le b a = true)
    (htrans : ∀ a b c, le a b = true → le b c = true → le a c = true) :
    (sortStable le l).Pairwise fun a b => le a b = true := by
  induction l with
  | nil => simp [sortStable]
  | cons x xs ih => exact pairwise_insertLe le x _ htot htrans ih

theorem insertLe_of_le_all {α : Type} (le : α → α → Bool) (x : α) (l : List α)
    (h : ∀ y ∈ l, le x y = true) : insertLe le x l = x :: l := by
  cases l with
  | nil => rfl
  | cons y ys => simp [insertLe, h y (List.mem_cons_self y ys)]

theorem sortStable_eq_self {α : Type} (le : α → α → Bool) (l : List α)
    (hl : l.Pairwise fun a b => le a b = true) : sortStable le l = l := by
  induction l with
  | nil => rfl
  | cons x xs ih =>
      rcases List.pairwise_cons.mp hl with ⟨hx, hxs⟩
      rw [sortStable, ih hxs, insertLe_of_le_all le x xs hx]

theorem insertLe_append_of_le_head {α : Type} (le : α → α → Bool) (x : α)
    (A B : List α) (hB : ∀ b ∈ B, le x b = true) :
    insertLe le x (A ++ B) = insertLe le x A ++ B := by
  induction A with
  | nil =>
      cases B with
      | nil => rfl
      | cons b bs => simp [insertLe, hB b (List.mem_cons_self b bs)]
  | cons a as ih =>
      by_cases h : le x a
      · simp [insertLe, h]
      · simp [insertLe, h, ih]

theorem insertLe_append_of_not_le {α : Type} (le : α → α → Bool) (x : α)
    (A B : List α) (hA : ∀ a ∈ A, le x a = false) :
    insertLe le x (A ++ B) = A ++ insertLe le x B := by
  induction A with
  | nil => rfl
  | cons a as ih =>
      have ha : le x a = false := hA a (List.mem_cons_self a as)
      have ih' := ih fun a' ha' => hA a' (List.mem_cons_of_mem a ha')
      simp [List.cons_append, insertLe, ha, ih']

/-- Splitting the normalizer's comparator sort: items with a defined `order`
come first, sorted among themselves; items without an `order` follow in their
original relative order. -/
theorem sortStable_cmpLe_split (l : List TaskItem) :
    sortStable cmpLe l =
      sortStable cmpLe (l.filter fun t => (t.item.order).isSome) ++
        (l.filter fun t => (t.item.order).isNone) := by
  induction l with
  | nil => rfl
  | cons t ts ih =>
      cases ho : t.item.order with
      | some n =>
          have hfil₁ :
              (t :: ts).filter (fun t => (t.item.order).isSome) =
                t :: ts.filter fun t => (t.item.order).isSome := by
            simp [List.filter_cons, ho]
          have hfil₂ :
              (t :: ts).filter (fun t => (t.item.order).isNone) =
                ts.filter fun t => (t.item.order).isNone := by
            simp [List.filter_cons, ho]
          rw [sortStable, ih, hfil₁, hfil₂, sortStable]
          apply insertLe_append_of_le_head
          intro b hb
          have hb' := List.of_mem_filter hb
          cases hbo : b.item.order with
          | some m => rw [hbo] at hb'; simp at hb'
          | none => simp [cmpLe, ho, hbo]
      | none =>
          have hfil₁ :
              (t :: ts).filter (fun t => (t.item.order).isSome) =
                ts.filter fun t => (t.item.order).isSome := by
            simp [List.filter_cons, ho]
          have hfil₂ :
              (t :: ts).filter (fun t => (t.item.order).isNone) =
                t :: ts.filter fun t => (t.item.order).isNone := by
            simp [List.filter_cons, ho]
          rw [sortStable, ih, hfil₁, hfil₂]
          rw [insertLe_append_of_not_le]
          · congr 1
            apply insertLe_of_le_all
            intro y hy
            have hy' := List.of_mem_filter hy
            cases hyo : y.item.order with
            | some m => rw [hyo] at hy'; simp at hy'
            | none => simp [cmpLe, ho, hyo]
          · intro a ha
            have ha' := List.of_mem_filter ((mem_sortStable cmpLe _ a).mp ha)
            cases hao : a.item.order with
            | some m => simp [cmpLe, ho, hao]
            | none => rw [hao] at ha'; simp at ha'

/-! ## Helper lemmas: `fillOrders` and reindexing -/

theorem fillOrders_eq_self (i : Nat) (l : List TaskItem)
    (h : ∀ t ∈ l, t.item.order ≠ none) : fillOrders i l = l := by
  induction l generalizing i with
  | nil => rfl
  | cons t ts ih =>
      rw [fillOrders, if_neg (h t (List.mem_cons_self t ts)),
        ih (i + 1) fun t' ht' => h t' (List.mem_cons_of_mem t ht')]

theorem fillOrders_append (i : Nat) (A B : List TaskItem) :
    fillOrders i (A ++ B) = fillOrders i A ++ fillOrders (i + A.length) B := by
  induction A generalizing i with
  | nil => simp [fillOrders]
  | cons t ts ih =>
      have harith : i + 1 + ts.length = i + (ts.length + 1) := by omega
      simp only [List.cons_append, fillOrders, List.length_cons, List.append_eq,
        ih (i + 1), harith]

theorem length_fillOrders (i : Nat) (l : List TaskItem) :
    (fillOrders i l).length = l.length := by
  induction l generalizing i with
  | nil => rfl
  | cons t ts ih => simp [fillOrders, ih]

theorem length_mapIdxFrom (f : TaskItem → Nat → TaskItem) (i : Nat) (l : List TaskItem) :
    (mapIdxFrom f i l).length = l.length := by
  induction l generalizing i with
  | nil => rfl
  | cons t ts ih => simp [mapIdxFrom, ih]

theorem get_mapIdxFrom (f : TaskItem → Nat → TaskItem) (i : Nat) (l : List TaskItem)
    (j : Nat) (h : j < l.length) (h2 : j < (mapIdxFrom f i l).length) :
    (mapIdxFrom f i l).get ⟨j, h2⟩ = f (l.get ⟨j, h⟩) (i + j) := by
  induction l generalizing i j with
  | nil => exact absurd h (by simp)
  | cons t ts ih =>
      cases j with
      | zero => simp [mapIdxFrom]
      | succ j' =>
          have h' : j' < ts.length := by simpa using h
          have h2' : j' < (mapIdxFrom f (i + 1) ts).length := by
            rw [length_mapIdxFrom]; exact h'
          have := ih (i + 1) j' h' h2'
          simp only [mapIdxFrom, List.get_cons_succ]
          rw [this]
          congr 1
          omega

/-! ## Helper lemmas: splicing and the renumber-and-rebuild loop -/

theorem spliceInsert_perm {α : Type} (l : List α) (i : Nat) (x : α) :
    List.Perm (spliceInsert l i x) (x :: l) := by
  unfold spliceInsert
  have h := @List.perm_middle α x (l.take i) (l.drop i)
  rwa [List.take_append_drop] at h

theorem spliceInsert_of_length_le {α : Type} (l : List α) (i : Nat) (x : α)
    (h : l.length ≤ i) : spliceInsert l i x = l ++ [x] := by
  unfold spliceInsert
  rw [List.take_of_length_le h, List.drop_eq_nil_of_le h]

theorem spliceRemove_append {α : Type} :
    ∀ (pre : List α) (t : α) (post : List α),
      spliceRemove (pre ++ t :: post) pre.length = pre ++ post
  | [], t, post => by simp [spliceRemove]
  | a :: pre', t, post => by
      have ih := spliceRemove_append pre' t post
      simp only [spliceRemove, List.cons_append, List.length_cons,
        List.take_succ_cons, List.drop_succ_cons] at *
      simp [ih]

theorem ids_mapIdxFrom (f : TaskItem → Nat → TaskItem)
    (hid : ∀ t i, (f t i).item.id = t.item.id) (i : Nat) (l : List TaskItem) :
    (mapIdxFrom f i l).map (fun t => t.item.id) = l.map fun t => t.item.id := by
  induction l generalizing i with
  | nil => rfl
  | cons t ts ih => simp [mapIdxFrom, hid, ih]

theorem buildReorderedGo_eq (f : TaskItem → Nat → TaskItem)
    (hid : ∀ t i, (f t i).item.id = t.item.id) :
    ∀ (l : List TaskItem) (i : Nat) (acc : List (String × TaskItem)),
      (l.map fun t => t.item.id).Nodup →
      (∀ t ∈ l, t.item.id ∉ acc.map Prod.fst) →
      buildReorderedGo f i acc l = acc ++ (mapIdxFrom f i l).map fun t => (t.item.id, t)
  | [], i, acc, _, _ => by simp [buildReorderedGo, mapIdxFrom]
  | t :: ts, i, acc, hnd, hacc => by
      simp only [List.map_cons, List.nodup_cons] at hnd
      have hset : recordSet acc t.item.id (f t i) = acc ++ [(t.item.id, f t i)] :=
        recordSet_of_not_mem_keys acc t.item.id (f t i)
          (hacc t (List.mem_cons_self t ts))
      have hacc' : ∀ t' ∈ ts, t'.item.id ∉ (acc ++ [(t.item.id, f t i)]).map Prod.fst := by
        intro t' ht'
        simp only [List.map_append, List.mem_append, List.map_cons, List.map_nil,
          List.mem_singleton, not_or]
        refine ⟨hacc t' (List.mem_cons_of_mem t ht'), ?_⟩
        intro hcontra
        exact hnd.1 (hcontra ▸ List.mem_map.mpr ⟨t', ht', rfl⟩)
      have ih := buildReorderedGo_eq f hid ts (i + 1) (acc ++ [(t.item.id, f t i)])
        hnd.2 hacc'
      simp only [buildReorderedGo, hset, ih, mapIdxFrom, List.map_cons,
        List.append_assoc, List.singleton_append]
      rw [hid t i]

theorem buildReordered_eq (f : TaskItem → Nat → TaskItem)
    (hid : ∀ t i, (f t i).item.id = t.item.id) (l : List TaskItem)
    (hnd : (l.map fun t => t.item.id).Nodup) :
    buildReordered f l = (mapIdxFrom f 0 l).map fun t => (t.item.id, t) := by
  unfold buildReordered
  exact buildReorderedGo_eq f hid l 0 [] hnd (by simp)

theorem length_buildReordered (f : TaskItem → Nat → TaskItem)
    (hid : ∀ t i, (f t i).item.id = t.item.id) (l : List TaskItem)
    (hnd : (l.map fun t => t.item.id).Nodup) :
    (buildReordered f l).length = l.length := by
  rw [buildReordered_eq f hid l hnd, List.length_map, length_mapIdxFrom]

/-- Density of the renumbered bucket: item `j` of the rebuilt record carries
`order = some j`. -/
theorem order_buildReordered (f : TaskItem → Nat → TaskItem)
    (hid : ∀ t i, (f t i).item.id = t.item.id)
    (hord : ∀ t i, (f t i).item.order = some i) (l : List TaskItem)
    (hnd : (l.map fun t => t.item.id).Nodup) (j : Nat)
    (hj : j < (buildReordered f l).length) :
    ((buildReordered f l).get ⟨j, hj⟩).2.item.order = some j := by
  have heq := buildReordered_eq f hid l hnd
  revert hj
  rw [heq]
  intro hj
  have hjm : j < (mapIdxFrom f 0 l).length := by simpa using hj
  have hlen : j < l.length := by rwa [length_mapIdxFrom] at hjm
  rw [List.get_map, get_mapIdxFrom f 0 l j hlen hjm, hord]
  simp

theorem mem_keys_of_recordGet {α : Type} (l : List (String × α)) (k : String) (v : α)
    (h : recordGet l k = some v) : k ∈ l.map Prod.fst := by
  induction l with
  | nil => simp [recordGet] at h
  | cons p rest ih =>
      by_cases hk : k = p.1
      · simp [hk]
      · simp only [recordGet, hk, if_false] at h
        simp [ih h]

/-! ## Claim C5: retry behaviour of `runWithRetry` -/

/-- C5 counterexample.  The claim says a `PlanNotFound` failure is not retried
and is surfaced to the caller immediately.  Here attempt 0 fails with
`planNotFound`, yet `runWithRetry` retries and returns attempt 1's success,
so the first failure was neither final nor surfaced. -/
theorem runWithRetry_planNotFound_retried_cex :
    (fun i => if i = 0 then Except.error PlanErr.planNotFound
      else Except.ok (42 : Nat)) 0 = Except.error PlanErr.planNotFound ∧
    runWithRetry 5 (fun i => if i = 0 then Except.error PlanErr.planNotFound
      else Except.ok (42 : Nat)) = Except.ok 42 := by
  constructor
  · rfl
  · rfl

/-- C5 (amended): `runWithRetry` never inspects the error kind.  Every
failure — `PlanNotFound` and `ItemNotFound` included — is retried up to the
fixed limit of 5 attempts: a run whose attempts all fail surfaces the last
error only after exhausting the budget, and a failure followed by a success
is swallowed by the retry. -/
theorem runWithRetry_retries_every_error {α : Type}
    (fn gn : Nat → Except PlanErr α) (e e' : PlanErr) (x : α)
    (hfn : ∀ i, i < 4 → fn i = Except.error e)
    (hfn4 : fn 4 = Except.error e')
    (hgn0 : gn 0 = Except.error e)
    (hgn1 : gn 1 = Except.ok x) :
    runWithRetry 5 fn = Except.error e' ∧ runWithRetry 5 gn = Except.ok x := by
  constructor
  · have h0 := hfn 0 (by omega)
    have h1 := hfn 1 (by omega)
    have h2 := hfn 2 (by omega)
    have h3 := hfn 3 (by omega)
    simp [runWithRetry, runWithRetryGo, h0, h1, h2, h3, hfn4]
  · simp [runWithRetry, runWithRetryGo, hgn0, hgn1]

theorem runWithRetry_retries_every_error_witness :
    runWithRetry 5 (fun _ => (Except.error PlanErr.itemNotFound : Except PlanErr Nat)) =
      Except.error PlanErr.itemNotFound ∧
    runWithRetry 5 (fun i => if i = 0 then Except.error PlanErr.itemNotFound
      else Except.ok (7 : Nat)) = Except.ok 7 :=
  runWithRetry_retries_every_error
    (fun _ => Except.error PlanErr.itemNotFound)
    (fun i => if i = 0 then Except.error PlanErr.itemNotFound else Except.ok 7)
    PlanErr.itemNotFound PlanErr.itemNotFound 7
    (fun _ _ => rfl) rfl rfl rfl

/-! ## Claim C1: cross-day moves of Sections -/

/-- C1 counterexample.  The claim says every cross-day Move of a Section
fails with `InvalidMove` and leaves the aggregate unchanged.  The
persistence-layer `moveTask` — the function the claim points at — happily
moves the section `s` from day 0 to day 1 and commits a changed aggregate:
the call succeeds, and the result has `s` in day 1. -/
theorem moveTask_section_crossDay_succeeds_cex :
    sectionS.type = ItemType.section ∧
    moveTask planC1 0 1 "s" true none none (some 0) 99 = Except.ok planC1res ∧
    (dget planC1res.days 1).map (fun d => d.tasks.map Prod.fst) = some ["s"] ∧
    planC1res ≠ planC1 := by
  refine ⟨rfl, ?_, rfl, by decide⟩
  rfl

/-- C1 (amended): the Section day-immutability check does not live in the
persistence-layer `moveTask` but one layer up, in the context-layer
`moveTaskBetweenDays`, which rejects a cross-day move of a Section before
delegating to `moveTask` — hence before any write, so an erroring call leaves
the aggregate unchanged.  `moveTask` itself performs no Section check (its
only `'section'`-sensitivity is skipping the assignee override). -/
theorem moveTaskBetweenDays_rejects_section_crossDay
    (plan : Plan) (src tgt : Nat) (itemId : String) (sIdx tIdx : Nat)
    (assign : Option (Option String)) (isTemplate : Bool) (now : Nat)
    (day : DayPlan) (t : TaskItem)
    (hday : dget plan.days src = some day)
    (ht : recordGet day.tasks itemId = some t)
    (hsec : t.type = ItemType.section)
    (hne : src ≠ tgt) :
    moveTaskBetweenDays plan src tgt itemId sIdx tIdx assign isTemplate now =
      Except.error PlanErr.sectionCrossDay := by
  unfold moveTaskBetweenDays
  rw [hday]
  simp [ht, hsec, hne]

theorem moveTaskBetweenDays_rejects_section_crossDay_witness :
    moveTaskBetweenDays planC1 0 1 "s" 0 0 none true 99 =
      Except.error PlanErr.sectionCrossDay :=
  moveTaskBetweenDays_rejects_section_crossDay planC1 0 1 "s" 0 0 none true 99
    { id := "p-0", dayOfWeek := 0, tasks := [("s", sectionS)] } sectionS
    rfl rfl rfl (by decide)

/-! ## Claim C4: source-bucket pruning on cross-day Move -/

/-- C4 counterexample, Scenario B of the spec.  The claim says that after a
cross-day Move removing the last item of the source bucket, the source day's
key is absent from the plan's day mapping.  Moving `a` — the only item of
day 1 — to day 2 succeeds, but day 1 *remains* in the mapping with an empty
task record. -/
theorem moveTask_no_source_prune_cex :
    moveTask planC4 1 2 "a" false none none (some 0) 99 = Except.ok planC4res ∧
    dget planC4res.days 1 = some { id := "P-1", dayOfWeek := 1, tasks := [] } ∧
    (dget planC4res.days 1).isSome = true := by
  refine ⟨?_, rfl, rfl⟩
  rfl

/-- C4 (amended): after a successful cross-day Move that removes the last
item of the source bucket, the source day's key *remains* in the plan's day
mapping, bound to a bucket with an empty item record — `moveTask` never
prunes; only `deleteTask` does.  (The target day's key is present.) -/
theorem moveTask_crossDay_keeps_empty_source
    (plan : Plan) (src tgt : Nat) (tid : String) (isTemplate : Bool)
    (assign : Option (Option String)) (sIdx tIdx : Option Nat) (now : Nat)
    (day : DayPlan) (t : TaskItem)
    (hne : src ≠ tgt)
    (hday : dget plan.days src = some day)
    (honly : day.tasks = [(tid, t)]) :
    ∃ p', moveTask plan src tgt tid isTemplate assign sIdx tIdx now = Except.ok p' ∧
      dget p'.days src = some { day with tasks := [] } ∧
      (dget p'.days tgt).isSome = true := by
  have hget : recordGet day.tasks tid = some t := by
    rw [honly]; simp [recordGet]
  have hdel : recordDelete day.tasks tid = [] := by
    rw [honly]; simp [recordDelete]
  simp only [moveTask, hday, hget]
  rw [if_neg (by simp [hne])]
  simp only [hdel]
  refine ⟨_, rfl, ?_, ?_⟩
  · rw [dget_dset_other _ tgt src _ hne, dget_dset_self]
  · rw [dget_dset_self]
    rfl

theorem moveTask_crossDay_keeps_empty_source_witness :
    ∃ p', moveTask planC4 1 2 "a" false none none (some 0) 99 = Except.ok p' ∧
      dget p'.days 1 = some { dayC4 with tasks := [] } ∧
      (dget p'.days 2).isSome = true :=
  moveTask_crossDay_keeps_empty_source planC4 1 2 "a" false none none (some 0) 99
    dayC4 taskA4 (by decide) rfl rfl

/-! ## Claim C6: Delete semantics -/

/-- C6: when the addressed item is present, `deleteTask` succeeds, removing
exactly that item: the day's key disappears from the plan when the item was
the bucket's last one, and otherwise the bucket stays with one item fewer,
every other entry (its `order` included) read back unchanged; other days are
untouched.  When the item id is absent, `deleteTask` fails with the
item-not-found error (`Task not found`). -/
theorem deleteTask_spec
    (plan : Plan) (d : Nat) (tid : String) (isTemplate : Bool) (now : Nat)
    (day : DayPlan)
    (hday : dget plan.days d = some day)
    (hnd : (day.tasks.map Prod.fst).Nodup) :
    (∀ t, recordGet day.tasks tid = some t →
      ∃ p', deleteTask plan d tid isTemplate now = Except.ok p' ∧
        (day.tasks.length = 1 → dget p'.days d = none) ∧
        (1 < day.tasks.length →
          ∃ day', dget p'.days d = some day' ∧
            recordGet day'.tasks tid = none ∧
            day'.tasks.length + 1 = day.tasks.length ∧
            ∀ k, k ≠ tid → recordGet day'.tasks k = recordGet day.tasks k) ∧
        (∀ d', d' ≠ d → dget p'.days d' = dget plan.days d')) ∧
    (recordGet day.tasks tid = none →
      deleteTask plan d tid isTemplate now = Except.error PlanErr.taskNotFound) := by
  constructor
  · intro t ht
    have hlen := length_recordDelete day.tasks tid t hnd ht
    simp only [deleteTask, hday, ht]
    by_cases he : (recordDelete day.tasks tid).isEmpty
    · rw [if_pos he]
      have hnil : recordDelete day.tasks tid = [] := by
        cases hd : recordDelete day.tasks tid with
        | nil => rfl
        | cons a as => rw [hd] at he; simp [List.isEmpty] at he
      have hlen1 : day.tasks.length = 1 := by rw [hnil] at hlen; simpa using hlen.symm
      refine ⟨_, rfl, ?_, ?_, ?_⟩
      · intro _
        exact dget_ddelete_self plan.days d
      · intro hgt
        exact absurd (hlen1 ▸ hgt) (lt_irrefl 1)
      · intro d' hd'
        exact dget_ddelete_other plan.days d d' hd'
    · rw [if_neg he]
      refine ⟨_, rfl, ?_, ?_, ?_⟩
      · intro h1
        exfalso
        apply he
        have : (recordDelete day.tasks tid).length = 0 := by omega
        rw [List.length_eq_zero.mp this]
        rfl
      · intro _
        refine ⟨_, dget_dset_self plan.days d _, ?_, hlen, ?_⟩
        · exact recordGet_recordDelete_self day.tasks tid
        · intro k hk
          exact recordGet_recordDelete_other day.tasks tid k hk
      · intro d' hd'
        exact dget_dset_other plan.days d d' _ hd'
  · intro hnone
    simp only [deleteTask, hday, hnone]

theorem deleteTask_spec_witness :
    (∀ t, recordGet dayC6.tasks "x" = some t →
      ∃ p', deleteTask planC6 3 "x" false 99 = Except.ok p' ∧
        (dayC6.tasks.length = 1 → dget p'.days 3 = none) ∧
        (1 < dayC6.tasks.length →
          ∃ day', dget p'.days 3 = some day' ∧
            recordGet day'.tasks "x" = none ∧
            day'.tasks.length + 1 = dayC6.tasks.length ∧
            ∀ k, k ≠ "x" → recordGet day'.tasks k = recordGet dayC6.tasks k) ∧
        (∀ d', d' ≠ 3 → dget p'.days d' = dget planC6.days d')) ∧
    (recordGet dayC6.tasks "x" = none →
      deleteTask planC6 3 "x" false 99 = Except.error PlanErr.taskNotFound) :=
  deleteTask_spec planC6 3 "x" false 99 dayC6 rfl (by decide)

/-! ## Claim C7: Update semantics -/

/-- C7 counterexample.  The claim quantifies over every partial update and
asserts the item's `order` is left unchanged; but the merge spreads
`updates.item` over the stored envelope, so an update carrying
`order: 5` rewrites the item's `order` from 0 to 5. -/
theorem updateTask_changes_order_cex :
    (recordGet dayC7.tasks "a").map (fun t => t.item.order) = some (some 0) ∧
    updateTask planC7 0 "a" updC7 false 99 = Except.ok planC7res ∧
    ((dget planC7res.days 0).bind (fun dp => recordGet dp.tasks "a")).map
      (fun t => t.item.order) = some (some 5) := by
  refine ⟨rfl, ?_, rfl⟩
  rfl

/-- C7 (amended): provided the partial updates do not themselves carry an
`order` field, `updateTask` merges them into the stored envelope and
variant-specific fields, stamps `updatedAt := now`, and leaves the item's
`order`, the bucket's key set, every other item of the bucket, and every
other day bucket unchanged (in particular no renumbering of siblings — the
Ordering Normalizer is not involved).  An update whose `item` part contains
`order` overrides it instead. -/
theorem updateTask_spec
    (plan : Plan) (d : Nat) (tid : String) (upd : PartialTaskItem)
    (isTemplate : Bool) (now : Nat) (day : DayPlan) (t : TaskItem)
    (hday : dget plan.days d = some day)
    (ht : recordGet day.tasks tid = some t)
    (hOrd : (upd.item.getD {}).order = none) :
    ∃ p' day' t', updateTask plan d tid upd isTemplate now = Except.ok p' ∧
      dget p'.days d = some day' ∧
      recordGet day'.tasks tid = some t' ∧
      t'.item.order = t.item.order ∧
      t'.item.updatedAt = now ∧
      t'.type = upd.type.getD t.type ∧
      t'.item.title = ((upd.item.getD {}).title).getD t.item.title ∧
      t'.item.minutes = ((upd.item.getD {}).minutes).getD t.item.minutes ∧
      t'.item.assignedTo = ((upd.item.getD {}).assignedTo).getD t.item.assignedTo ∧
      t'.item.completed = ((upd.item.getD {}).completed).getD t.item.completed ∧
      t'.item.notes = ((upd.item.getD {}).notes).getD t.item.notes ∧
      t'.item.categoryId = ((upd.item.getD {}).categoryId).getD t.item.categoryId ∧
      t'.item.color = ((upd.item.getD {}).color).getD t.item.color ∧
      day'.tasks.map Prod.fst = day.tasks.map Prod.fst ∧
      (∀ k, k ≠ tid → recordGet day'.tasks k = recordGet day.tasks k) ∧
      (∀ d', d' ≠ d → dget p'.days d' = dget plan.days d') := by
  simp only [updateTask, hday, ht]
  refine ⟨_, _, mergeTaskItem t upd now, rfl, dget_dset_self plan.days d _,
    recordGet_recordSet_self day.tasks tid _, ?_, ?_, ?_, ?_, ?_, ?_, ?_, ?_, ?_, ?_,
    ?_, ?_, ?_⟩
  · simp [mergeTaskItem, mergeItem, hOrd]
  · simp [mergeTaskItem, mergeItem]
  · simp [mergeTaskItem]
  · simp [mergeTaskItem, mergeItem]
  · simp [mergeTaskItem, mergeItem]
  · simp [mergeTaskItem, mergeItem]
  · simp [mergeTaskItem, mergeItem]
  · simp [mergeTaskItem, mergeItem]
  · simp [mergeTaskItem, mergeItem]
  · simp [mergeTaskItem, mergeItem]
  · exact keys_recordSet_of_mem day.tasks tid _ (mem_keys_of_recordGet day.tasks tid t ht)
  · intro k hk
    exact recordGet_recordSet_other day.tasks tid k _ hk
  · intro d' hd'
    exact dget_dset_other plan.days d d' _ hd'

theorem updateTask_spec_witness :
    ∃ p' day' t', updateTask planC7 0 "a" updC7w false 99 = Except.ok p' ∧
      dget p'.days 0 = some day' ∧
      recordGet day'.tasks "a" = some t' ∧
      t'.item.order = taskA7.item.order ∧
      t'.item.updatedAt = 99 ∧
      t'.type = updC7w.type.getD taskA7.type ∧
      t'.item.title = ((updC7w.item.getD {}).title).getD taskA7.item.title ∧
      t'.item.minutes = ((updC7w.item.getD {}).minutes).getD taskA7.item.minutes ∧
      t'.item.assignedTo = ((updC7w.item.getD {}).assignedTo).getD taskA7.item.assignedTo ∧
      t'.item.completed = ((updC7w.item.getD {}).completed).getD taskA7.item.completed ∧
      t'.item.notes = ((updC7w.item.getD {}).notes).getD taskA7.item.notes ∧
      t'.item.categoryId = ((updC7w.item.getD {}).categoryId).getD taskA7.item.categoryId ∧
      t'.item.color = ((updC7w.item.getD {}).color).getD taskA7.item.color ∧
      day'.tasks.map Prod.fst = dayC7.tasks.map Prod.fst ∧
      (∀ k, k ≠ "a" → recordGet day'.tasks k = recordGet dayC7.tasks k) ∧
      (∀ d', d' ≠ 0 → dget p'.days d' = dget planC7.days d') :=
  updateTask_spec planC7 0 "a" updC7w false 99 dayC7 taskA7 rfl rfl rfl

/-! ## Claims C3 and C8: the Ordering Normalizer -/

theorem cmpLe_total (a b : TaskItem) : cmpLe a b = true ∨ cmpLe b a = true := by
  unfold cmpLe
  cases a.item.order with
  | none => cases b.item.order <;> simp
  | some x =>
      cases b.item.order with
      | none => simp
      | some y => simpa using Nat.le_total x y

theorem cmpLe_trans (a b c : TaskItem) (h1 : cmpLe a b = true) (h2 : cmpLe b c = true) :
    cmpLe a c = true := by
  unfold cmpLe at *
  cases ha : a.item.order with
  | none =>
      rw [ha] at h1
      cases hb : b.item.order with
      | none =>
          rw [hb] at h2
          cases hc : c.item.order with
          | none => simp
          | some z => rw [hc] at h2; simp at h2
      | some y => rw [hb] at h1; simp at h1
  | some x =>
      cases hc : c.item.order with
      | none => simp
      | some z =>
          rw [ha] at h1
          rw [hc] at h2
          cases hb : b.item.order with
          | none => rw [hb] at h2; simp at h2
          | some y =>
              rw [hb] at h1
              rw [hb] at h2
              simp only [decide_eq_true_eq] at *
              exact Nat.le_trans h1 h2

theorem fillOrders_all_some (i : Nat) (l : List TaskItem) :
    ∀ t ∈ fillOrders i l, (t.item.order).isSome := by
  induction l generalizing i with
  | nil => simp [fillOrders]
  | cons x xs ih =>
      intro t ht
      rw [fillOrders] at ht
      rcases List.mem_cons.mp ht with h | h
      · subst h
        cases hx : x.item.order with
        | none => simp [hx]
        | some n => simp [hx]
      · exact ih (i + 1) t h

/-- C3 (amended): the normalizer re-emits the defined-`order` items first,
sorted by the comparator and *unchanged* — their stored `order` values are
kept, not rewritten to positional indices — followed by the items lacking an
`order` in their original relative order, each of those assigned its
positional index (`count-of-defined + offset`); afterwards every item carries
some `order`.  The claim's guarantee that output orders are exactly `0..N-1`
holds only when the stored orders already are such. -/
theorem sortTaskArray_spec (l : List TaskItem) :
    sortTaskArray l =
      sortStable cmpLe (l.filter fun t => (t.item.order).isSome) ++
        fillOrders ((l.filter fun t => (t.item.order).isSome).length)
          (l.filter fun t => (t.item.order).isNone) ∧
    (∀ t ∈ sortStable cmpLe (l.filter fun t => (t.item.order).isSome), t ∈ l) ∧
    List.Pairwise (fun a b => cmpLe a b = true)
      (sortStable cmpLe (l.filter fun t => (t.item.order).isSome)) ∧
    (∀ t ∈ sortTaskArray l, (t.item.order).isSome) := by
  have hSdef : ∀ t ∈ sortStable cmpLe (l.filter fun t => (t.item.order).isSome),
      t.item.order ≠ none := by
    intro t ht
    have := List.of_mem_filter ((mem_sortStable cmpLe _ t).mp ht)
    simp only [Option.isSome_iff_ne_none] at this
    exact this
  have hsplit : sortTaskArray l =
      sortStable cmpLe (l.filter fun t => (t.item.order).isSome) ++
        fillOrders ((l.filter fun t => (t.item.order).isSome).length)
          (l.filter fun t => (t.item.order).isNone) := by
    unfold sortTaskArray
    rw [sortStable_cmpLe_split l, fillOrders_append,
      fillOrders_eq_self 0 _ hSdef, Nat.zero_add, length_sortStable]
  refine ⟨hsplit, ?_, ?_, ?_⟩
  · intro t ht
    exact List.mem_of_mem_filter ((mem_sortStable cmpLe _ t).mp ht)
  · exact pairwise_sortStable cmpLe _ cmpLe_total cmpLe_trans
  · intro t ht
    rw [hsplit] at ht
    rcases List.mem_append.mp ht with h | h
    · rw [Option.isSome_iff_ne_none]
      exact hSdef t h
    · exact fillOrders_all_some _ _ t h

/-- C3 counterexample.  The claim guarantees output `order` values are
exactly `0..N-1`: on the single-item list whose stored `order` is the stale
value 5, the normalizer keeps 5 (it only assigns indices to items *lacking*
an `order`), so the output orders are {5}, not {0}. -/
theorem sortTaskArray_not_dense_cex :
    sortTaskArray [taskC3] = [taskC3] ∧
    (sortTaskArray [taskC3]).map (fun t => t.item.order) = [some 5] := by
  constructor
  · rfl
  · rfl

/-- C8: on a list whose `order` values are exactly `0..N-1`, running the
normalizer twice gives the same list as running it once. -/
theorem sortTaskArray_idempotent (l : List TaskItem)
    (h : List.Perm (l.map fun t => t.item.order) ((List.range l.length).map some)) :
    sortTaskArray (sortTaskArray l) = sortTaskArray l := by
  have hsome : ∀ t ∈ l, t.item.order ≠ none := by
    intro t ht hn
    have hmem : t.item.order ∈ l.map fun t => t.item.order :=
      List.mem_map.mpr ⟨t, ht, rfl⟩
    have := h.mem_iff.mp hmem
    rw [hn] at this
    simp at this
  have hS : sortTaskArray l = sortStable cmpLe l := by
    unfold sortTaskArray
    exact fillOrders_eq_self 0 _ fun t ht => hsome t ((mem_sortStable cmpLe l t).mp ht)
  have hpw := pairwise_sortStable cmpLe l cmpLe_total cmpLe_trans
  rw [hS]
  unfold sortTaskArray
  rw [sortStable_eq_self cmpLe _ hpw]
  exact fillOrders_eq_self 0 _ fun t ht => hsome t ((mem_sortStable cmpLe l t).mp ht)

theorem sortTaskArray_idempotent_witness :
    sortTaskArray (sortTaskArray [taskX8, taskY8]) = sortTaskArray [taskX8, taskY8] :=
  sortTaskArray_idempotent [taskX8, taskY8] (by decide)

/-! ## Claim C2: dense ordering after mutations -/

theorem wf_values_ids (day : DayPlan) (h : WFDay day) :
    (day.tasks.map Prod.snd).map (fun t => t.item.id) = day.tasks.map Prod.fst := by
  rw [List.map_map]
  apply List.map_congr_left
  intro p hp
  exact h.2 p hp

theorem nodup_ids_splice (pre post : List TaskItem) (t0 task : TaskItem) (k : Nat)
    (hnd : ((pre ++ t0 :: post).map fun t => t.item.id).Nodup)
    (htid : task.item.id = t0.item.id) :
    ((spliceInsert (pre ++ post) k task).map fun t => t.item.id).Nodup := by
  have hmid : (t0.item.id :: ((pre ++ post).map fun t => t.item.id)).Nodup := by
    have hre : ((pre ++ t0 :: post).map fun t => t.item.id) =
        (pre.map fun t => t.item.id) ++
          t0.item.id :: (post.map fun t => t.item.id) := by
      simp
    rw [hre] at hnd
    have h := List.nodup_middle.mp hnd
    simpa using h
  have hperm := (spliceInsert_perm (pre ++ post) k task).map fun t => t.item.id
  apply hperm.nodup_iff.mpr
  simp only [List.map_cons]
  rw [htid]
  exact hmid

/-- C2 counterexample.  The claim covers Delete: deleting `a` (order 0) from
the bucket `[a(0), b(1)]` succeeds and leaves `[b(1)]` — the remaining order
set is {1}, not {0} = {0..count-1}: `deleteTask` never renumbers. -/
theorem deleteTask_leaves_gap_cex :
    deleteTask planC2 0 "a" false 99 = Except.ok planC2res ∧
    (dget planC2res.days 0).map (fun dp => dp.tasks.map fun p => p.2.item.order) =
      some [some 1] := by
  constructor
  · rfl
  · rfl

/-- C2 (amended): density holds for Add and for the same-day reorder Move,
not for Delete (nor for the source bucket of a cross-day Move).  After any
`addTaskToDay` into a well-formed bucket (fresh id), and after any same-day
`moveTask` whose `sourceIndex` addresses the moved item's position in the
sorted task array, the affected bucket's `order` values are exactly
`0..count-1`, item `j` carrying `order = some j`. -/
theorem addTask_and_sameDayMove_dense
    (plan : Plan) (d : Nat) (payload : NewTaskItem) (isTemplate : Bool)
    (insertIndex : Option Nat) (addId : String) (now : Nat)
    (day : DayPlan) (pre post : List TaskItem) (t0 : TaskItem) (tid : String)
    (tIdx : Nat) (assign : Option (Option String)) (now2 : Nat)
    (hday : dget plan.days d = some day)
    (hwf : WFDay day)
    (hfresh : addId ∉ day.tasks.map Prod.fst)
    (hsplit : sortStable leOrd0 (day.tasks.map Prod.snd) = pre ++ t0 :: post)
    (hid0 : t0.item.id = tid) :
    (∃ day₁,
      dget (addTaskToDay plan d payload isTemplate insertIndex addId now).2.days d =
        some day₁ ∧
      ∀ j (hj : j < day₁.tasks.length),
        (day₁.tasks.get ⟨j, hj⟩).2.item.order = some j) ∧
    (∃ p' day₂,
      moveTask plan d d tid isTemplate assign (some pre.length) (some tIdx) now2 =
        Except.ok p' ∧
      dget p'.days d = some day₂ ∧
      ∀ j (hj : j < day₂.tasks.length),
        (day₂.tasks.get ⟨j, hj⟩).2.item.order = some j) := by
  have hvalsids : (day.tasks.map Prod.snd).map (fun t => t.item.id) =
      day.tasks.map Prod.fst := wf_values_ids day hwf
  constructor
  · -- Add part
    simp only [addTaskToDay, hday, Option.getD_some]
    refine ⟨_, dget_dset_self plan.days d _, ?_⟩
    intro j hj
    apply order_buildReordered stampOrder (fun _ _ => rfl) (fun _ _ => rfl) _ ?_ j hj
    -- Nodup of the spliced ids
    have hperm1 := (spliceInsert_perm (sortStable leOrd0 (day.tasks.map Prod.snd))
      ((insertIndex.getD (sortStable leOrd0 (day.tasks.map Prod.snd)).length))
      ({ type := payload.type,
         item :=
           { id := addId, title := payload.item.title,
             order := some (insertIndex.getD
               (sortStable leOrd0 (day.tasks.map Prod.snd)).length),
             createdAt := now, updatedAt := now, minutes := payload.item.minutes,
             assignedTo := payload.item.assignedTo, completed := payload.item.completed,
             categoryId := payload.item.categoryId, notes := payload.item.notes,
             color := payload.item.color, collapsed := payload.item.collapsed } })).map
        (fun t => t.item.id)
    have hperm2 := ((sortStable_perm leOrd0 (day.tasks.map Prod.snd)).map
      (fun t => t.item.id))
    rw [hvalsids] at hperm2
    apply (hperm1.nodup_iff).mpr
    simp only [List.map_cons]
    exact List.nodup_cons.mpr ⟨fun hmem => hfresh (hperm2.subset hmem), hperm2.nodup_iff.mpr hwf.1⟩
  · -- Same-day move part
    have hmem0 : t0 ∈ sortStable leOrd0 (day.tasks.map Prod.snd) := by
      rw [hsplit]
      exact List.mem_append.mpr (Or.inr (List.mem_cons_self t0 post))
    have hval : t0 ∈ day.tasks.map Prod.snd := (mem_sortStable _ _ t0).mp hmem0
    obtain ⟨p, hp, hpt⟩ := List.mem_map.mp hval
    have hkey : p = (tid, t0) := by
      have h1 : p.1 = tid := by rw [← hid0, ← hpt]; exact (hwf.2 p hp).symm
      have h2 : p.2 = t0 := hpt
      exact Prod.ext h1 h2
    have hget : recordGet day.tasks tid = some t0 :=
      recordGet_of_mem_nodup day.tasks tid t0 hwf.1 (hkey ▸ hp)
    have hsortnd : ((pre ++ t0 :: post).map fun t => t.item.id).Nodup := by
      have hperm2 := ((sortStable_perm leOrd0 (day.tasks.map Prod.snd)).map
        (fun t => t.item.id))
      rw [hvalsids, hsplit] at hperm2
      exact hperm2.nodup_iff.mpr hwf.1
    have htaskid : ∀ tk : TaskItem,
        (match assign with
         | some v =>
             if isAssignableItem tk = true then
               { tk with item := { tk.item with assignedTo := some v, updatedAt := now2 } }
             else tk
         | none => tk).item.id = tk.item.id := by
      intro tk
      cases assign with
      | none => rfl
      | some v =>
          by_cases hA : isAssignableItem tk = true
          · simp [hA]
          · simp [hA]
    simp only [moveTask, hday, hget, Option.getD_some]
    rw [if_pos (by simp)]
    rw [hsplit, spliceRemove_append]
    refine ⟨_, _, rfl, dget_dset_self plan.days d _, ?_⟩
    intro j hj
    apply order_buildReordered (stampOrderMoved tid now2) (fun _ _ => rfl)
      (fun _ _ => rfl) _ ?_ j hj
    exact nodup_ids_splice pre post t0 _ tIdx hsortnd (htaskid t0)

theorem addTask_and_sameDayMove_dense_witness :
    (∃ day₁,
      dget (addTaskToDay planC2w 0 payloadN false none "n" 77).2.days 0 =
        some day₁ ∧
      ∀ j (hj : j < day₁.tasks.length),
        (day₁.tasks.get ⟨j, hj⟩).2.item.order = some j) ∧
    (∃ p' day₂,
      moveTask planC2w 0 0 "m" false none (some 0) (some 0) 99 =
        Except.ok p' ∧
      dget p'.days 0 = some day₂ ∧
      ∀ j (hj : j < day₂.tasks.length),
        (day₂.tasks.get ⟨j, hj⟩).2.item.order = some j) :=
  addTask_and_sameDayMove_dense planC2w 0 payloadN false none "n" 77
    dayC2w [] [] taskM "m" 0 none 99
    rfl (by decide) (by decide) rfl rfl

/-! ## Claim C10: the Add return value's `order` vs the committed `order` -/

theorem mapIdxFrom_append (f : TaskItem → Nat → TaskItem) (i : Nat)
    (A B : List TaskItem) :
    mapIdxFrom f i (A ++ B) = mapIdxFrom f i A ++ mapIdxFrom f (i + A.length) B := by
  induction A generalizing i with
  | nil => simp [mapIdxFrom]
  | cons t ts ih =>
      have harith : i + 1 + ts.length = i + (ts.length + 1) := by omega
      simp only [List.cons_append, mapIdxFrom, List.length_cons, List.append_eq,
        ih (i + 1), harith]

/-- Appending a fresh item and renumbering stores it under its id with
`order = position = previous length`. -/
theorem recordGet_buildReordered_last (l : List TaskItem) (x : TaskItem)
    (hnd : ((l ++ [x]).map fun t => t.item.id).Nodup) :
    recordGet (buildReordered stampOrder (l ++ [x])) x.item.id =
      some (stampOrder x l.length) := by
  rw [buildReordered_eq stampOrder (fun _ _ => rfl) _ hnd]
  have hkeys : ((mapIdxFrom stampOrder 0 (l ++ [x])).map
      (fun t => (t.item.id, t))).map Prod.fst = (l ++ [x]).map fun t => t.item.id := by
    rw [List.map_map]
    have : ((fun t => (t.item.id, t)) ∘ (fun t : TaskItem => t)) = fun t : TaskItem => (t.item.id, t) := rfl
    rw [show (Prod.fst ∘ fun t : TaskItem => (t.item.id, t)) = fun t : TaskItem => t.item.id from rfl]
    exact ids_mapIdxFrom stampOrder (fun _ _ => rfl) 0 (l ++ [x])
  apply recordGet_of_mem_nodup
  · rw [hkeys]
    exact hnd
  · have hmem : stampOrder x (0 + l.length) ∈ mapIdxFrom stampOrder 0 (l ++ [x]) := by
      rw [mapIdxFrom_append]
      exact List.mem_append.mpr (Or.inr (by simp [mapIdxFrom]))
    have hmm : ((stampOrder x (0 + l.length)).item.id, stampOrder x (0 + l.length)) ∈
        (mapIdxFrom stampOrder 0 (l ++ [x])).map (fun t => (t.item.id, t)) :=
      List.mem_map.mpr ⟨stampOrder x (0 + l.length), hmem, rfl⟩
    simpa [stampOrder] using hmm

/-- C10: when the caller-supplied insertion index `k` exceeds the bucket's
current item count, the `TaskItem` returned by `addTaskToDay` carries
`order = k` (the requested index), while the item committed to the store
carries `order = count` (its actual position after the clamped splice); the
two disagree. -/
theorem addTaskToDay_order_mismatch
    (plan : Plan) (d : Nat) (payload : NewTaskItem) (isTemplate : Bool)
    (k : Nat) (tid : String) (now : Nat) (day : DayPlan)
    (hday : dget plan.days d = some day)
    (hwf : WFDay day)
    (hfresh : tid ∉ day.tasks.map Prod.fst)
    (hk : day.tasks.length < k) :
    (addTaskToDay plan d payload isTemplate (some k) tid now).1.item.order = some k ∧
    ∃ day' stored,
      dget (addTaskToDay plan d payload isTemplate (some k) tid now).2.days d =
        some day' ∧
      recordGet day'.tasks tid = some stored ∧
      stored.item.order = some day.tasks.length ∧
      (addTaskToDay plan d payload isTemplate (some k) tid now).1.item.order ≠
        stored.item.order := by
  have hlenex : (sortStable leOrd0 (day.tasks.map Prod.snd)).length =
      day.tasks.length := by
    rw [length_sortStable, List.length_map]
  have hke : (sortStable leOrd0 (day.tasks.map Prod.snd)).length ≤ k := by omega
  have hpermids := ((sortStable_perm leOrd0 (day.tasks.map Prod.snd)).map
    (fun t => t.item.id))
  rw [wf_values_ids day hwf] at hpermids
  constructor
  · simp only [addTaskToDay, hday, Option.getD_some]
  · simp only [addTaskToDay, hday, Option.getD_some]
    rw [spliceInsert_of_length_le _ k _ hke]
    have hnd : (((sortStable leOrd0 (day.tasks.map Prod.snd)) ++
        [({ type := payload.type,
            item :=
              { id := tid, title := payload.item.title, order := some k,
                createdAt := now, updatedAt := now, minutes := payload.item.minutes,
                assignedTo := payload.item.assignedTo,
                completed := payload.item.completed,
                categoryId := payload.item.categoryId, notes := payload.item.notes,
                color := payload.item.color,
                collapsed := payload.item.collapsed } } : TaskItem)]).map
          fun t => t.item.id).Nodup := by
      rw [List.map_append]
      apply List.nodup_middle.mpr
      simp only [List.map_cons, List.map_nil, List.append_nil]
      exact List.nodup_cons.mpr
        ⟨fun hmem => hfresh (hpermids.subset hmem), hpermids.nodup_iff.mpr hwf.1⟩
    refine ⟨_, _, dget_dset_self plan.days d _, recordGet_buildReordered_last _ _ hnd,
      ?_, ?_⟩
    · simp [stampOrder, hlenex]
    · simp only [stampOrder, hlenex]
      intro hcontra
      have : k = day.tasks.length := by
        simpa using hcontra
      omega

theorem addTaskToDay_order_mismatch_witness :
    (addTaskToDay planC10 0 payloadN false (some 5) "n" 77).1.item.order = some 5 ∧
    ∃ day' stored,
      dget (addTaskToDay planC10 0 payloadN false (some 5) "n" 77).2.days 0 =
        some day' ∧
      recordGet day'.tasks "n" = some stored ∧
      stored.item.order = some (dayC10.tasks.length) ∧
      (addTaskToDay planC10 0 payloadN false (some 5) "n" 77).1.item.order ≠
        stored.item.order :=
  addTaskToDay_order_mismatch planC10 0 payloadN false 5 "n" 77 dayC10
    rfl (by decide) (by decide) (by decide)

/-! ## Claim C9: the Metrics Projector -/

/-- C9: with two distinct collaborator ids and every task assigned to one of
them or unassigned, the three owner groups partition the task list, and for
each group the projector reports the group's size, its completed count, the
sum of its minutes, the sum of minutes over its incomplete tasks, and a
completion rate of completed/total for a non-empty group and 0 for an empty
one. -/
theorem calculateTaskMetricsByOwner_spec
    (userId partnerId : String) (tasks : List Task)
    (hne : userId ≠ partnerId)
    (hdom : ∀ t ∈ tasks, t.assignedTo = none ∨ t.assignedTo = some userId ∨
      t.assignedTo = some partnerId) :
    List.Perm
      (filterTasksByOwner userId partnerId tasks Owner.user ++
        (filterTasksByOwner userId partnerId tasks Owner.partner ++
          filterTasksByOwner userId partnerId tasks Owner.unassigned)) tasks ∧
    ((calculateTaskMetricsByOwner userId partnerId tasks).user.totalTasks =
        (tasks.filter fun t => t.assignedTo = some userId).length ∧
      (calculateTaskMetricsByOwner userId partnerId tasks).user.completedTasks =
        ((tasks.filter fun t => t.assignedTo = some userId).filter
          fun t => t.completed).length ∧
      (calculateTaskMetricsByOwner userId partnerId tasks).user.totalMinutes =
        ((tasks.filter fun t => t.assignedTo = some userId).map Task.minutes).sum ∧
      (calculateTaskMetricsByOwner userId partnerId tasks).user.remainingMinutes =
        (((tasks.filter fun t => t.assignedTo = some userId).filter
          fun t => !t.completed).map Task.minutes).sum ∧
      ((tasks.filter fun t => t.assignedTo = some userId).length ≠ 0 →
        (calculateTaskMetricsByOwner userId partnerId tasks).user.completionRate =
          (((tasks.filter fun t => t.assignedTo = some userId).filter
            fun t => t.completed).length : ℚ) /
            ((tasks.filter fun t => t.assignedTo = some userId).length : ℚ)) ∧
      ((tasks.filter fun t => t.assignedTo = some userId).length = 0 →
        (calculateTaskMetricsByOwner userId partnerId tasks).user.completionRate = 0)) ∧
    ((calculateTaskMetricsByOwner userId partnerId tasks).partner.totalTasks =
        (tasks.filter fun t => t.assignedTo = some partnerId).length ∧
      (calculateTaskMetricsByOwner userId partnerId tasks).partner.completedTasks =
        ((tasks.filter fun t => t.assignedTo = some partnerId).filter
          fun t => t.completed).length ∧
      (calculateTaskMetricsByOwner userId partnerId tasks).partner.totalMinutes =
        ((tasks.filter fun t => t.assignedTo = some partnerId).map Task.minutes).sum ∧
      (calculateTaskMetricsByOwner userId partnerId tasks).partner.remainingMinutes =
        (((tasks.filter fun t => t.assignedTo = some partnerId).filter
          fun t => !t.completed).map Task.minutes).sum ∧
      ((tasks.filter fun t => t.assignedTo = some partnerId).length ≠ 0 →
        (calculateTaskMetricsByOwner userId partnerId tasks).partner.completionRate =
          (((tasks.filter fun t => t.assignedTo = some partnerId).filter
            fun t => t.completed).length : ℚ) /
            ((tasks.filter fun t => t.assignedTo = some partnerId).length : ℚ)) ∧
      ((tasks.filter fun t => t.assignedTo = some partnerId).length = 0 →
        (calculateTaskMetricsByOwner userId partnerId tasks).partner.completionRate = 0)) ∧
    ((calculateTaskMetricsByOwner userId partnerId tasks).unassigned.totalTasks =
        (tasks.filter fun t => t.assignedTo = none).length ∧
      (calculateTaskMetricsByOwner userId partnerId tasks).unassigned.completedTasks =
        ((tasks.filter fun t => t.assignedTo = none).filter
          fun t => t.completed).length ∧
      (calculateTaskMetricsByOwner userId partnerId tasks).unassigned.totalMinutes =
        ((tasks.filter fun t => t.assignedTo = none).map Task.minutes).sum ∧
      (calculateTaskMetricsByOwner userId partnerId tasks).unassigned.remainingMinutes =
        (((tasks.filter fun t => t.assignedTo = none).filter
          fun t => !t.completed).map Task.minutes).sum ∧
      ((tasks.filter fun t => t.assignedTo = none).length ≠ 0 →
        (calculateTaskMetricsByOwner userId partnerId tasks).unassigned.completionRate =
          (((tasks.filter fun t => t.assignedTo = none).filter
            fun t => t.completed).length : ℚ) /
            ((tasks.filter fun t => t.assignedTo = none).length : ℚ)) ∧
      ((tasks.filter fun t => t.assignedTo = none).length = 0 →
        (calculateTaskMetricsByOwner userId partnerId tasks).unassigned.completionRate = 0)) := by
  refine ⟨?_, ?_, ?_, ?_⟩
  · -- the three groups partition the list
    induction tasks with
    | nil => simp [filterTasksByOwner]
    | cons t ts ih =>
        have hts : ∀ t' ∈ ts, t'.assignedTo = none ∨ t'.assignedTo = some userId ∨
            t'.assignedTo = some partnerId :=
          fun t' ht' => hdom t' (List.mem_cons_of_mem t ht')
        have ihp := ih hts
        simp only [filterTasksByOwner] at ihp ⊢
        rcases hdom t (List.mem_cons_self t ts) with h0 | h1 | h2
        · simp only [List.filter_cons, h0]
          norm_num
          refine List.Perm.trans ?_ (ihp.cons t)
          exact (List.Perm.append_left _ List.perm_middle).trans List.perm_middle
        · have hne2 : ¬(userId = partnerId) := hne
          simp only [List.filter_cons, h1]
          simp [hne2]
          exact ihp
        · have hne2 : ¬(partnerId = userId) := fun hh => hne hh.symm
          simp only [List.filter_cons, h2]
          simp [hne2]
          exact List.Perm.trans List.perm_middle (ihp.cons t)
  · refine ⟨rfl, rfl, rfl, rfl, ?_, ?_⟩
    · intro h
      simp only [calculateTaskMetricsByOwner, filterTasksByOwner, calculateTaskMetrics]
      rw [if_pos (Nat.pos_of_ne_zero h)]
    · intro h
      simp only [calculateTaskMetricsByOwner, filterTasksByOwner, calculateTaskMetrics]
      rw [if_neg (by omega)]
  · refine ⟨rfl, rfl, rfl, rfl, ?_, ?_⟩
    · intro h
      simp only [calculateTaskMetricsByOwner, filterTasksByOwner, calculateTaskMetrics]
      rw [if_pos (Nat.pos_of_ne_zero h)]
    · intro h
      simp only [calculateTaskMetricsByOwner, filterTasksByOwner, calculateTaskMetrics]
      rw [if_neg (by omega)]
  · refine ⟨rfl, rfl, rfl, rfl, ?_, ?_⟩
    · intro h
      simp only [calculateTaskMetricsByOwner, filterTasksByOwner, calculateTaskMetrics]
      rw [if_pos (Nat.pos_of_ne_zero h)]
    · intro h
      simp only [calculateTaskMetricsByOwner, filterTasksByOwner, calculateTaskMetrics]
      rw [if_neg (by omega)]

theorem calculateTaskMetricsByOwner_spec_witness :
    List.Perm
      (filterTasksByOwner "u" "v" tasksC9 Owner.user ++
        (filterTasksByOwner "u" "v" tasksC9 Owner.partner ++
          filterTasksByOwner "u" "v" tasksC9 Owner.unassigned)) tasksC9 ∧
    (calculateTaskMetricsByOwner "u" "v" tasksC9).user.totalTasks =
      (tasksC9.filter fun t => t.assignedTo = some "u").length :=
  ⟨(calculateTaskMetricsByOwner_spec "u" "v" tasksC9 (by decide) (by decide)).1,
    (calculateTaskMetricsByOwner_spec "u" "v" tasksC9 (by decide) (by decide)).2.1.1⟩

end TaskBuddy
